import Mathlib

/-!
# Verification of the ps2-map-controller event / ownership subsystem

This file gives a shallow embedding, in Lean 4, of the parts of the
`ps2-map-controller` repository that the specification's claims are about:

* `src/controller/_cache.py` — the `tlru_cache` decorator (time-aware cache
  over an `collections.OrderedDict`);
* `src/controller/_dispatcher.py` — `EventDispatcher._dispatch` and the
  per-cycle guard in `EventDispatcher.run`;
* `src/controller/events.py` — the `Event` / `BaseControl` records;
* `src/controller/handlers/_base_ownership.py` — the
  `BaseOwnershipController` (delta application, bootstrap from census
  snapshots);
* `src/controller/_blip_handler.py` — `_get_base_control_blips` row decoding.

Python `dict` / `collections.OrderedDict` values are modelled as association
lists in insertion order (head = oldest entry).  Plain assignment `d[k] = v`
updates the first (unique) occurrence in place, preserving its position, and
appends a new entry at the end otherwise — exactly the observable semantics
of insertion-ordered Python dicts.  `OrderedDict.popitem()` (the default,
`last=True`) removes the most recently inserted entry, i.e. the last element
of the association list.  Wall-clock times (`time.time()` floats /
`datetime.datetime` values) are modelled as integers: the claims only
compare and store them, and every concrete instant used below is exactly
representable as a float (ℤ is used rather than ℚ because the claims only ever compare and copy instants, never divide them).
-/

namespace PS2Map

/-- Python `d[k]` lookup on an insertion-ordered dict, `None` when absent
(`KeyError` sites in the source match on `none` explicitly). -/
def dlookup {κ β : Type} [DecidableEq κ] : List (κ × β) → κ → Option β
  | [], _ => none
  | (k', v) :: rest, k => if k = k' then some v else dlookup rest k

/-- Python `d[k] = v` on an insertion-ordered dict: overwrite the existing
entry in place (keeping its position) or append a fresh entry at the end. -/
def dset {κ β : Type} [DecidableEq κ] : List (κ × β) → κ → β → List (κ × β)
  | [], k, v => [(k, v)]
  | (k', v') :: rest, k, v =>
      if k = k' then (k, v) :: rest else (k', v') :: dset rest k v


/-! ## The time-aware cache (`src/controller/_cache.py`)

`tlru_cache(maxsize, ttl)` wraps an async function `func` in a `wrapper`
closing over an `OrderedDict`.  The wrapper builds
`key = (args, kwargs)` and then tests `if key in cache:`.  That
membership test hashes the key: a tuple hashes by hashing its
components, and while `args` is a tuple of hashable scalars, `kwargs`
is a `dict` — and `dict` defines no hash — so hashing the key raises
`TypeError: unhashable type: 'dict'` on every call, whatever the
arguments (an empty `kwargs` is still a dict).  The hit/expiry/miss/
eviction code after the membership test is therefore unreachable.  We
model argument scalars as `PyArg`, the key as the `(args, kwargs)`
pair, hashability by Python's rules, and one `wrapper` call as
`tlru_call`, whose `none` result is the escaping `TypeError`; cached
values are `Nat`, `time.time()` instants `ℤ`, and the `Bool` of a
completed call records whether the wrapped function was awaited. -/

/-- A scalar argument value as passed to the cached lookups
(`get_base(base_id)`, `get_servers(active_only)`, …). -/
inductive PyArg : Type where
  | int (n : ℤ)
  | str (s : String)
  | bool (b : Bool)
deriving DecidableEq, Repr

/-- Python hashability of a scalar argument: ints, strings and bools
all hash fine. -/
def PyArg.hashable : PyArg → Bool
  | .int _ => true
  | .str _ => true
  | .bool _ => true

/-- The cache key `key = (args, kwargs)` built by `wrapper`: the
positional-argument tuple and the keyword-argument dict. -/
structure CallKey : Type where
  args : List PyArg
  kwargs : List (String × PyArg)
deriving DecidableEq, Repr

/-- `hash(args)`: a tuple is hashable iff every component is. -/
def hashable_args_tuple (args : List PyArg) : Bool :=
  args.all PyArg.hashable

/-- `hash(kwargs)`: `dict.__hash__` is `None`, so hashing any dict —
empty or not — raises `TypeError`. -/
def hashable_kwargs_dict (_kwargs : List (String × PyArg)) : Bool :=
  false

/-- `hash(key)` for `key = (args, kwargs)`: the outer tuple is
hashable iff both of its components are. -/
def CallKey.hashable (k : CallKey) : Bool :=
  hashable_args_tuple k.args && hashable_kwargs_dict k.kwargs

/-- Cache table: argument key ↦ (cached value, insertion/refresh time).
Mirrors `cache : collections.OrderedDict` in `tlru_cache`. -/
abbrev Cache : Type := List (CallKey × (Nat × ℤ))

/-- The miss path of `wrapper` (translated for completeness; no call
reaches it): `value = await func(...)`, `cache[key] = value, now`, then
`if len(cache) > maxsize: cache.popitem()` (`popitem` with its default
`last=True` drops the newest entry). -/
def tlru_miss (maxsize : Nat) (f : CallKey → Nat) (cache : Cache)
    (key : CallKey) (now : ℤ) : Nat × Cache × Bool :=
  let value := f key
  let cache := dset cache key (value, now)
  let cache := if maxsize < cache.length then cache.dropLast else cache
  (value, cache, true)

/-- One call of `wrapper(*args, **kwargs)` at wall-clock time `now`:
build `key = (args, kwargs)`; the membership test `key in cache` hashes
`key` and raises `TypeError` when the key is unhashable (the `none`
result); were the key hashable, a hit (`key in cache` and
`last_access + ttl > now`) would return the cached value without
touching `func` and anything else would run the miss path. -/
def tlru_call (maxsize : Nat) (ttl : ℤ) (f : CallKey → Nat)
    (cache : Cache) (key : CallKey) (now : ℤ) :
    Option (Nat × Cache × Bool) :=
  if key.hashable then
    some
      (match dlookup cache key with
        | some (value, last_access) =>
            if last_access + ttl > now then (value, cache, false)
            else tlru_miss maxsize f cache key now
        | none => tlru_miss maxsize f cache key now)
  else none

/-- A sequence of `wrapper` calls (key, time) threading the cache and
counting how many invoked the wrapped function; a call that raises
aborts the sequence (the `TypeError` propagates to the caller). -/
def tlru_run (maxsize : Nat) (ttl : ℤ) (f : CallKey → Nat) :
    Cache → List (CallKey × ℤ) → Option (Cache × Nat)
  | cache, [] => some (cache, 0)
  | cache, (key, now) :: rest =>
      match tlru_call maxsize ttl f cache key now with
      | none => none
      | some r =>
          match tlru_run maxsize ttl f r.2.1 rest with
          | none => none
          | some s => some (s.1, (if r.2.2 then 1 else 0) + s.2)

/-! ## Events (`src/controller/events.py`)

`Event` is the frozen-dataclass base (timestamp, server_id, continent_id);
`BaseControl` subclasses it with base_id, old_faction_id, new_faction_id.
`type(event)` distinguishes the two concrete classes; we model it as the
`EventType` tag.  `datetime` timestamps are modelled as `ℤ`. -/

/-- The `BaseControl` dataclass of `src/controller/events.py`. -/
structure BaseControl : Type where
  timestamp : ℤ
  server_id : Nat
  continent_id : Nat
  base_id : Nat
  old_faction_id : Nat
  new_faction_id : Nat
deriving DecidableEq, Repr

/-- A runtime event instance: either a `BaseControl` or a bare `Event`
(the only two concrete shapes in `src/controller/events.py`). -/
inductive Event : Type where
  | base (b : BaseControl)
  | plain (timestamp : ℤ) (server_id : Nat) (continent_id : Nat)
deriving DecidableEq, Repr

/-- The result of Python's `type(event)` as far as dispatch grouping and
`isinstance` checks are concerned. -/
inductive EventType : Type where
  | baseControl
  | event
deriving DecidableEq, Repr

def Event.etype : Event → EventType
  | .base _ => .baseControl
  | .plain _ _ _ => .event

def Event.server_id : Event → Nat
  | .base b => b.server_id
  | .plain _ s _ => s

/-! ## The ownership controller (`src/controller/handlers/_base_ownership.py`)

`BaseOwnershipController._ownership_map` is
`dict[int, dict[int, tuple[int, datetime.datetime]]]`:
server id ↦ (facility id ↦ (controlling faction, last change time)). -/

/-- One server's `dict[int, tuple[int, datetime]]` of facility ownership. -/
abbrev OwnerMap : Type := List (Nat × (Nat × ℤ))

/-- `BaseOwnershipController._ownership_map`. -/
abbrev OwnershipMap : Type := List (Nat × OwnerMap)

/-- The event loop of `_set_base_ownership`:
`owner_map[event.base_id] = event.new_faction_id, event.timestamp` for each
event in order.  (The `except KeyError` around the assignment is dead code:
dict item assignment never raises `KeyError`.)  The source iterates over the
`list[Event]` it received via `typing.cast`; an element that is not actually
a `BaseControl` lacks the accessed attributes, raising an uncaught
`AttributeError` — modelled as `none`. -/
def apply_deltas : List Event → OwnerMap → Option OwnerMap
  | [], om => some om
  | .base b :: rest, om =>
      apply_deltas rest (dset om b.base_id (b.new_faction_id, b.timestamp))
  | .plain _ _ _ :: _, _ => none

/-- `BaseOwnershipController._set_base_ownership(server_id, events)`:
look up `self._ownership_map[server_id]`; on `KeyError` log a warning and
return with no mutation; otherwise apply every event to that server's map. -/
def set_base_ownership (server_id : Nat) (events : List Event)
    (m : OwnershipMap) : Option OwnershipMap :=
  match dlookup m server_id with
  | none => some m
  | some owner_map => (apply_deltas events owner_map).map (dset m server_id)

/-- `BaseOwnershipController.handle(events)`: only when the batch is
non-empty and its first element is a `BaseControl` does it call
`_set_base_ownership(events[0].server_id, events)`. -/
def handle (events : List Event) (m : OwnershipMap) : Option OwnershipMap :=
  match events with
  | [] => some m
  | e :: _ =>
      match e with
      | .base _ => set_base_ownership e.server_id events m
      | .plain _ _ _ => some m

/-- `BaseOwnershipController._set_base_ownership_from_census_data`:
`self._ownership_map[server_id] = {}`, then for every `map_data` in
`data['map_list']` and every row of `map_data['Regions']['Row']` insert
`base_id ↦ (faction_id, now)`.  `map_list` is modelled already decoded to
the `(RegionId, FactionId)` pairs (the claims only reach this code on rows
whose `int(...)` conversions succeeded); `now = datetime.datetime.now()` at
the start of the call. -/
def set_base_ownership_from_census_data (server_id : Nat)
    (map_list : List (List (Nat × Nat))) (now : ℤ) (m : OwnershipMap) :
    OwnershipMap :=
  dset m server_id
    (map_list.foldl
      (fun om rows =>
        rows.foldl (fun om r => dset om r.1 (r.2, now)) om)
      ([] : OwnerMap))

/-- `BaseOwnershipController._initialize` (also run by `reinitialize()` and
the constructor-time bootstrap): replace the whole ownership map by
`{s: {} for s in servers}` — the prior map `_prior` is discarded without
ever being read — then for each tracked server load the census snapshot
and overwrite that server's map; a snapshot fetch/decode failure
(modelled as `snapshots s = none`) is caught, logged and skipped. -/
def init_controller (_prior : OwnershipMap) (servers : List Nat)
    (snapshots : Nat → Option (List (List (Nat × Nat))))
    (fetch_time : Nat → ℤ) : OwnershipMap :=
  let m0 : OwnershipMap :=
    servers.foldl (fun acc s => dset acc s []) []
  servers.foldl
    (fun acc s =>
      match snapshots s with
      | some data => set_base_ownership_from_census_data s data (fetch_time s) acc
      | none => acc)
    m0

/-! ## The dispatcher (`src/controller/_dispatcher.py`) -/

/-- The dict-of-lists grouping idiom used twice in
`EventDispatcher._dispatch` (`events_by_type`, `events_by_server`):
iterate the batch, appending each element to the bucket of its key, creating
the bucket on `KeyError`.  Buckets appear in first-occurrence order of their
key; each bucket preserves the batch order of its elements. -/
def groupBy {α κ : Type} [DecidableEq κ] (key : α → κ) (xs : List α) :
    List (κ × List α) :=
  xs.foldl
    (fun acc x =>
      match dlookup acc (key x) with
      | some l => dset acc (key x) (l ++ [x])
      | none => acc ++ [(key x, [x])])
    []

/-- `EventDispatcher._dispatch(events)` as the sequence of
`handler.handle(server_events)` calls it performs, in order: group by
`type(event)`, within each type group by `event.server_id`, then for every
server bucket call each registered handler in registration order. -/
def dispatch {H : Type} (handlers : List H) (events : List Event) :
    List (H × List Event) :=
  (groupBy Event.etype events).flatMap
    (fun tg =>
      (groupBy Event.server_id tg.2).flatMap
        (fun sg => handlers.map (fun h => (h, sg.2))))

/-- One iteration of `EventDispatcher.run` after the fetch, as the calls it
makes: `if events: self._dispatch(events)` — an empty fetch dispatches
nothing. -/
def run_cycle {H : Type} (handlers : List H) (events : List Event) :
    List (H × List Event) :=
  if events.isEmpty then [] else dispatch handlers events

/-- Distinct keys in first-occurrence order — the iteration order of the
dicts built by the grouping idiom.  (Specification-side normal form used to
characterise `groupBy`.) -/
def dedupFirst {κ : Type} [DecidableEq κ] (ks : List κ) : List κ :=
  ks.foldl (fun acc k => if k ∈ acc then acc else acc ++ [k]) []

/-- Specification-side normal form of `groupBy`: one bucket per distinct
key, in first-occurrence order, holding the subsequence with that key. -/
def groupSpec {α κ : Type} [DecidableEq κ] (key : α → κ) (xs : List α) :
    List (κ × List α) :=
  (dedupFirst (xs.map key)).map (fun k => (k, xs.filter (fun x => key x = k)))

/-! ## Blip row decoding (`src/controller/_blip_handler.py`)

`_get_base_control_blips` pops raw rows from the event buffer and decodes
each with `BaseControl.from_row`, which reads `row['row']` positionally into
the model's six fields and lets pydantic validate them.  A cell either
parses as the expected field type or not; rows shorter than six cells raise
`IndexError`.  Both failure shapes (`pydantic.ValidationError`,
`IndexError`) are the caught "failed to decode" cases. -/

/-- A raw cell of a buffered database row: a value that validates as an
`int` field, one that validates as a `datetime` field, or one that fails
pydantic validation for either. -/
inductive Cell : Type where
  | num (n : Nat)
  | time (t : ℤ)
  | bad
deriving DecidableEq, Repr

/-- A raw database row (the `row['row']` sequence). -/
abbrev Row : Type := List Cell

/-- `BaseControl.from_row`: positional decode of
(timestamp, server_id, continent_id, base_id, old_faction_id,
new_faction_id); extra trailing cells are ignored (`from_row` only indexes
the first six); `none` models the caught `ValidationError` / `IndexError`. -/
def from_row : Row → Option BaseControl
  | .time ts :: .num sid :: .num cid :: .num bid :: .num ofid :: .num nfid :: _ =>
      some ⟨ts, sid, cid, bid, ofid, nfid⟩
  | _ => none

/-- `_get_base_control_blips`, state after the decode loop: the list of
successfully decoded blips (in fetch order) and the list of failed rows
(`failed`); the source then logs one batch-level warning mentioning
`len(failed)` and the sample `failed[0]` iff `failed` is non-empty, and
returns `blips` without raising. -/
def get_base_control_blips (rows : List Row) : List BaseControl × List Row :=
  rows.foldl
    (fun acc row =>
      match from_row row with
      | some b => (acc.1 ++ [b], acc.2)
      | none => (acc.1, acc.2 ++ [row]))
    ([], [])

/-! ## Theorems -/

@[simp] theorem dlookup_nil {κ β : Type} [DecidableEq κ] (k : κ) :
    dlookup ([] : List (κ × β)) k = none := rfl

@[simp] theorem dlookup_cons {κ β : Type} [DecidableEq κ] (k k' : κ) (v : β)
    (rest : List (κ × β)) :
    dlookup ((k', v) :: rest) k = if k = k' then some v else dlookup rest k := rfl

@[simp] theorem dset_nil {κ β : Type} [DecidableEq κ] (k : κ) (v : β) :
    dset ([] : List (κ × β)) k v = [(k, v)] := rfl

theorem dset_cons {κ β : Type} [DecidableEq κ] (k k' : κ) (v v' : β)
    (rest : List (κ × β)) :
    dset ((k', v') :: rest) k v =
      if k = k' then (k, v) :: rest else (k', v') :: dset rest k v := rfl

@[simp] theorem dlookup_dset_self {κ β : Type} [DecidableEq κ]
    (d : List (κ × β)) (k : κ) (v : β) :
    dlookup (dset d k v) k = some v := by
  induction d with
  | nil => simp [dset, dlookup]
  | cons hd tl ih =>
      obtain ⟨k', v'⟩ := hd
      by_cases h : k = k' <;> simp [dset, dlookup, h, ih]

theorem dlookup_dset_ne {κ β : Type} [DecidableEq κ]
    (d : List (κ × β)) (k k' : κ) (v : β) (hne : k' ≠ k) :
    dlookup (dset d k v) k' = dlookup d k' := by
  induction d with
  | nil => simp [dset, dlookup, hne]
  | cons hd tl ih =>
      obtain ⟨k₀, v₀⟩ := hd
      by_cases h : k = k₀
      · subst h; simp [dset, dlookup, hne]
      · by_cases h' : k' = k₀ <;> simp [dset, dlookup, h, h', ih]

theorem dset_dset_same {κ β : Type} [DecidableEq κ]
    (d : List (κ × β)) (k : κ) (v w : β) :
    dset (dset d k v) k w = dset d k w := by
  induction d with
  | nil => simp [dset]
  | cons hd tl ih =>
      obtain ⟨k', v'⟩ := hd
      by_cases h : k = k' <;> simp [dset, h, ih]

/-- Overwriting a key that is present keeps the list of keys (the dict's
iteration order) unchanged: the update happens in place. -/
theorem keys_dset_of_present {κ β : Type} [DecidableEq κ]
    (d : List (κ × β)) (k : κ) (v : β) (h : (dlookup d k).isSome) :
    (dset d k v).map Prod.fst = d.map Prod.fst := by
  induction d with
  | nil => simp [dlookup] at h
  | cons hd tl ih =>
      obtain ⟨k', v'⟩ := hd
      by_cases hk : k = k'
      · subst hk; simp [dset]
      · simp only [dlookup, if_neg hk] at h
        simp [dset, hk, ih h]

theorem length_dset_of_present {κ β : Type} [DecidableEq κ]
    (d : List (κ × β)) (k : κ) (v : β) (h : (dlookup d k).isSome) :
    (dset d k v).length = d.length := by
  have := keys_dset_of_present d k v h
  have h1 : ((dset d k v).map Prod.fst).length = (d.map Prod.fst).length := by
    rw [this]
  simpa using h1

theorem length_dset_of_absent {κ β : Type} [DecidableEq κ]
    (d : List (κ × β)) (k : κ) (v : β) (h : dlookup d k = none) :
    (dset d k v).length = d.length + 1 := by
  induction d with
  | nil => simp [dset]
  | cons hd tl ih =>
      obtain ⟨k', v'⟩ := hd
      by_cases hk : k = k'
      · simp [dlookup, hk] at h
      · simp only [dlookup, if_neg hk] at h
        simp [dset, hk, ih h]

theorem isSome_dlookup_dset {κ β : Type} [DecidableEq κ]
    (d : List (κ × β)) (k k' : κ) (v : β) :
    (dlookup (dset d k v) k').isSome ↔ k' = k ∨ (dlookup d k').isSome := by
  by_cases h : k' = k
  · subst h; simp
  · rw [dlookup_dset_ne d k k' v h]; simp [h]

theorem dlookup_dset_cases {κ β : Type} [DecidableEq κ]
    (d : List (κ × β)) (k k' : κ) (v w : β)
    (h : dlookup (dset d k v) k' = some w) :
    (k' = k ∧ w = v) ∨ dlookup d k' = some w := by
  by_cases hk : k' = k
  · subst hk; left; refine ⟨rfl, ?_⟩
    rw [dlookup_dset_self] at h
    exact (Option.some_injective _ h).symm
  · right; rw [dlookup_dset_ne d k k' v hk] at h; exact h

/-! ### Cache claims -/

/-- Every cache key the wrapper can build is unhashable: its second
component is the `kwargs` dict, and dicts define no hash. -/
theorem callKey_unhashable (k : CallKey) : k.hashable = false := by
  simp [CallKey.hashable, hashable_kwargs_dict]

/-- Hashing the key for the membership test `key in cache` raises
`TypeError` on every call, before the cache is consulted, before the
wrapped function is awaited, and before anything is ever inserted. -/
theorem tlru_call_raises (maxsize : Nat) (ttl : ℤ) (f : CallKey → Nat)
    (cache : Cache) (key : CallKey) (now : ℤ) :
    tlru_call maxsize ttl f cache key now = none := by
  unfold tlru_call
  rw [callKey_unhashable]
  rfl

/-- C2, code bug, evaluated at the failing input: with `maxsize = 1`,
calling the wrapped function with argument `0` at time `0` already
raises `TypeError` at `if key in cache` — `key = ((0,), {})` contains
the `kwargs` dict and is unhashable — so the claimed scenario never gets
under way: no entry is ever inserted, the table never exceeds `maxsize`,
and `popitem()` is unreachable; every call sequence aborts on its first
call. -/
theorem C2_eviction_unreachable :
    tlru_call 1 60 (fun _ => 0) [] (CallKey.mk [PyArg.int 0] []) 0 = none
    ∧ tlru_run 1 60 (fun _ => 0) []
        [(CallKey.mk [PyArg.int 0] [], 0), (CallKey.mk [PyArg.int 1] [], 1)]
        = none
    ∧ (∀ (maxsize : Nat) (ttl : ℤ) (f : CallKey → Nat) (cache : Cache)
         (key : CallKey) (now : ℤ) (rest : List (CallKey × ℤ)),
         tlru_run maxsize ttl f cache ((key, now) :: rest) = none) := by
  refine ⟨tlru_call_raises 1 60 _ [] _ 0, ?_, ?_⟩
  · unfold tlru_run
    rw [tlru_call_raises]
  · intro maxsize ttl f cache key now rest
    unfold tlru_run
    rw [tlru_call_raises]

/-- C3, code bug, evaluated at the failing input: every call of a
`tlru_cache`-wrapped function raises `TypeError: unhashable type:
'dict'` while hashing `key = (args, kwargs)` for the `key in cache`
test — unconditionally, since `kwargs` is always a dict.  No call ever
returns a value, the wrapped function is never invoked through the
wrapper, and no entry is ever cached, so neither the claimed hit path
nor the claimed expiry re-invocation ever happens. -/
theorem C3_hit_miss_unreachable :
    (∀ k : CallKey, k.hashable = false)
    ∧ (∀ (maxsize : Nat) (ttl : ℤ) (f : CallKey → Nat) (cache : Cache)
         (key : CallKey) (now : ℤ),
         tlru_call maxsize ttl f cache key now = none)
    ∧ tlru_call 128 60 (fun _ => 7) [] (CallKey.mk [PyArg.int 0] []) 0
        = none :=
  ⟨callKey_unhashable, tlru_call_raises,
    tlru_call_raises 128 60 _ [] _ 0⟩

/-! ### Ownership delta claims -/

/-- A batch whose elements are all `BaseControl` applies cleanly: the loop
upserts each event into the owner map in order. -/
theorem apply_deltas_map_base (bs : List BaseControl) (om : OwnerMap) :
    apply_deltas (bs.map Event.base) om
      = some (bs.foldl
          (fun acc b => dset acc b.base_id (b.new_faction_id, b.timestamp)) om) := by
  induction bs generalizing om with
  | nil => rfl
  | cons b rest ih => simp [apply_deltas, ih]

/-- The delta loop never removes a facility entry. -/
theorem apply_deltas_preserves (events : List Event) (om om' : OwnerMap)
    (h : apply_deltas events om = some om') :
    ∀ b, (dlookup om b).isSome → (dlookup om' b).isSome := by
  induction events generalizing om with
  | nil =>
      simp only [apply_deltas] at h
      cases h
      exact fun _ hb => hb
  | cons e rest ih =>
      cases e with
      | base bc =>
          simp only [apply_deltas] at h
          intro b hb
          exact ih _ h b
            ((isSome_dlookup_dset om bc.base_id b _).2 (Or.inr hb))
      | plain t s c => simp [apply_deltas] at h

/-- Every `BaseControl` in the batch ends up present in the owner map. -/
theorem apply_deltas_inserts (events : List Event) (om om' : OwnerMap)
    (h : apply_deltas events om = some om') :
    ∀ bc : BaseControl, Event.base bc ∈ events →
      (dlookup om' bc.base_id).isSome := by
  induction events generalizing om with
  | nil => intro bc hbc; simp at hbc
  | cons e rest ih =>
      cases e with
      | base b0 =>
          simp only [apply_deltas] at h
          intro bc hbc
          rcases List.mem_cons.1 hbc with heq | hmem
          · cases heq
            exact apply_deltas_preserves rest _ _ h b0.base_id
              ((isSome_dlookup_dset om b0.base_id b0.base_id _).2 (Or.inl rfl))
          · exact ih _ h bc hmem
      | plain t s c => simp [apply_deltas] at h

/-- C1, counterexample: server `1` stores `base 5 ↦ (faction 3, time 10)`;
a `BaseControl` event arrives whose new faction `3` equals the stored
faction but whose timestamp is `20`.  The claim says the stored record is
left unchanged (including its timestamp) as an idempotent no-op; the code
performs no such comparison and overwrites the record, changing the stored
timestamp from `10` to `20`. -/
theorem C1_no_redundancy_check_counterexample :
    (BaseControl.mk 20 1 7 5 2 3).new_faction_id = 3
    ∧ dlookup [(1, [(5, ((3 : Nat), (10 : ℤ)))])] 1 = some [(5, (3, 10))]
    ∧ handle [Event.base (BaseControl.mk 20 1 7 5 2 3)]
        [(1, [(5, (3, 10))])] = some [(1, [(5, (3, 20))])]
    ∧ [(1, [(5, ((3 : Nat), (20 : ℤ)))])] ≠ [(1, [(5, (3, 10))])] := by
  refine ⟨rfl, by decide, by decide, by decide⟩

/-- C1 as amended: delta application performs no comparison at all —
for a known server, every `BaseControl` event unconditionally overwrites
the facility's record with the event's new faction and the event's
timestamp (no timestamp-ordering check).  Applying the very same event
twice is still idempotent in effect: the second application rewrites the
identical record, so the resulting map is unchanged (a fixpoint), and the
spec's `OwnershipChange(base=5, old=2, new=3)` example still ends at
`{base 5 ↦ faction 3}`. -/
theorem C1_delta_overwrites_unconditionally (m : OwnershipMap)
    (e : BaseControl) (om : OwnerMap)
    (h : dlookup m e.server_id = some om) :
    handle [Event.base e] m
      = some (dset m e.server_id
          (dset om e.base_id (e.new_faction_id, e.timestamp)))
    ∧ ∀ m1, handle [Event.base e] m = some m1 →
        handle [Event.base e] m1 = some m1 := by
  have h1 : handle [Event.base e] m
      = some (dset m e.server_id
          (dset om e.base_id (e.new_faction_id, e.timestamp))) := by
    simp [handle, set_base_ownership, Event.server_id, h, apply_deltas]
  refine ⟨h1, ?_⟩
  intro m1 hm1
  rw [h1] at hm1
  cases hm1
  have h2 : dlookup
      (dset m e.server_id (dset om e.base_id (e.new_faction_id, e.timestamp)))
      e.server_id
      = some (dset om e.base_id (e.new_faction_id, e.timestamp)) :=
    dlookup_dset_self m e.server_id _
  simp [handle, set_base_ownership, Event.server_id, h2, apply_deltas,
    dset_dset_same]

/-- C1 amended, witness: the spec's own example on server `1` — applying
`OwnershipChange(base=5, old=2, new=3)` (timestamp `100`) twice yields
`{base 5 ↦ (faction 3, time 100)}`, the second application a fixpoint. -/
theorem C1_delta_overwrites_unconditionally_witness :
    handle [Event.base (BaseControl.mk 100 1 7 5 2 3)] [(1, [])]
      = some [(1, [(5, (3, 100))])]
    ∧ handle [Event.base (BaseControl.mk 100 1 7 5 2 3)]
        [(1, [(5, (3, 100))])] = some [(1, [(5, (3, 100))])] := by
  have h := C1_delta_overwrites_unconditionally [(1, [])]
    (BaseControl.mk 100 1 7 5 2 3) [] (by decide)
  have h1 : handle [Event.base (BaseControl.mk 100 1 7 5 2 3)] [(1, [])]
      = some [(1, [(5, (3, 100))])] := h.1
  exact ⟨h1, h.2 [(1, [(5, (3, 100))])] h1⟩

/-- C6: a `BaseControl` batch for a server id absent from the ownership
map is logged and dropped — `handle` returns with the entire map
unchanged and no exception escapes (the `KeyError` is caught before any
event is touched, so this holds for any batch contents). -/
theorem C6_unknown_server_drops (m : OwnershipMap) (e : BaseControl)
    (rest : List Event) (h : dlookup m e.server_id = none) :
    handle (Event.base e :: rest) m = some m := by
  simp [handle, set_base_ownership, Event.server_id, h]

/-- C6, witness: a delta for server `9` against a map tracking only
server `1` leaves the map exactly as it was. -/
theorem C6_unknown_server_drops_witness :
    handle [Event.base (BaseControl.mk 100 9 7 5 2 3)]
        [(1, [(5, ((3 : Nat), (10 : ℤ)))])]
      = some [(1, [(5, (3, 10))])] :=
  C6_unknown_server_drops [(1, [(5, (3, 10))])]
    (BaseControl.mk 100 9 7 5 2 3) [] (by decide)

/-- C7: whenever `handle` completes on a batch, no server's map loses any
facility entry (deltas only ever upsert; deletion happens only in the
reinitialize path), and when the batch is applied (first element a
`BaseControl` on a tracked server) every `BaseControl` of the batch is
present afterwards in that server's map — a facility id not yet present
is default-inserted. -/
theorem C7_no_delete_upsert (events : List Event) (m m' : OwnershipMap)
    (h : handle events m = some m') :
    (∀ s om, dlookup m s = some om →
       ∃ om', dlookup m' s = some om'
         ∧ ∀ b, (dlookup om b).isSome → (dlookup om' b).isSome)
    ∧ (∀ e rest om0, events = Event.base e :: rest →
       dlookup m e.server_id = some om0 →
       ∃ om', dlookup m' e.server_id = some om'
         ∧ ∀ bc : BaseControl, Event.base bc ∈ events →
             (dlookup om' bc.base_id).isSome) := by
  cases events with
  | nil =>
      simp only [handle] at h
      cases h
      exact ⟨fun s om hs => ⟨om, hs, fun _ hb => hb⟩,
        fun e rest om0 heq => by simp at heq⟩
  | cons e0 tail =>
      cases e0 with
      | plain t s c =>
          simp only [handle] at h
          cases h
          exact ⟨fun s' om hs => ⟨om, hs, fun _ hb => hb⟩,
            fun e rest om0 heq => by simp at heq⟩
      | base b0 =>
          simp only [handle, set_base_ownership, Event.server_id] at h
          cases hm : dlookup m b0.server_id with
          | none =>
              rw [hm] at h
              dsimp only at h
              cases h
              exact ⟨fun s om hs => ⟨om, hs, fun _ hb => hb⟩,
                fun e rest om0 heq hsv => by
                  cases heq
                  rw [hm] at hsv; cases hsv⟩
          | some om0 =>
              rw [hm] at h
              dsimp only at h
              cases happ : apply_deltas (Event.base b0 :: tail) om0 with
              | none => rw [happ] at h; cases h
              | some om1 =>
                  rw [happ] at h
                  simp only [Option.map_some'] at h
                  cases h
                  constructor
                  · intro s om hs
                    by_cases hss : s = b0.server_id
                    · subst hss
                      rw [hs] at hm
                      cases hm
                      exact ⟨om1, dlookup_dset_self m b0.server_id _,
                        apply_deltas_preserves _ _ _ happ⟩
                    · exact ⟨om, by
                        rw [dlookup_dset_ne m b0.server_id s _ hss]
                        exact hs, fun _ hb => hb⟩
                  · intro e rest om2 heq hsv
                    cases heq
                    exact ⟨om1, dlookup_dset_self m _ _,
                      apply_deltas_inserts _ _ _ happ⟩

/-- C7, witness: server `1` holds `base 9`; applying a delta for the new
facility `10` keeps `base 9` and default-inserts `base 10`. -/
theorem C7_no_delete_upsert_witness :
    (∃ om', dlookup [(1, [(9, ((3 : Nat), (0 : ℤ))), (10, (2, 1))])] 1
        = some om' ∧ (dlookup om' 9).isSome)
    ∧ (∃ om', dlookup [(1, [(9, ((3 : Nat), (0 : ℤ))), (10, (2, 1))])] 1
        = some om' ∧ (dlookup om' 10).isSome) := by
  have h := C7_no_delete_upsert
    [Event.base (BaseControl.mk 1 1 4 10 1 2)]
    [(1, [(9, (3, 0))])]
    [(1, [(9, (3, 0)), (10, (2, 1))])]
    (by decide)
  constructor
  · obtain ⟨om', hlk, hpres⟩ := h.1 1 [(9, (3, 0))] (by decide)
    exact ⟨om', hlk, hpres 9 (by decide)⟩
  · obtain ⟨om', hlk, hins⟩ := h.2 (BaseControl.mk 1 1 4 10 1 2) []
      [(9, (3, 0))] rfl (by decide)
    exact ⟨om', hlk, hins (BaseControl.mk 1 1 4 10 1 2) (by simp)⟩

/-- C10: `handle` looks only at the batch's first element — an empty batch
or one starting with a plain `Event` mutates nothing; a batch starting
with a `BaseControl` selects the server map of `events[0].server_id` and
writes every event of the batch into that single map, keyed by each
event's own base id with its new faction and timestamp, even when an
event's own server id differs from the first element's. -/
theorem C10_first_element_dispatch (m : OwnershipMap) :
    handle [] m = some m
    ∧ (∀ (t : ℤ) (s c : Nat) (rest : List Event),
        handle (Event.plain t s c :: rest) m = some m)
    ∧ (∀ (e0 : BaseControl) (rest : List BaseControl) (om : OwnerMap),
        dlookup m e0.server_id = some om →
        handle (Event.base e0 :: rest.map Event.base) m
          = some (dset m e0.server_id
              ((e0 :: rest).foldl
                (fun acc b => dset acc b.base_id (b.new_faction_id, b.timestamp))
                om))) := by
  refine ⟨rfl, fun t s c rest => rfl, ?_⟩
  intro e0 rest om h
  have : (Event.base e0 :: rest.map Event.base)
      = (e0 :: rest).map Event.base := by simp
  simp only [handle, set_base_ownership, Event.server_id, h, this,
    apply_deltas_map_base, Option.map_some']

/-- C10, witness: a mixed-server batch `[base 10 @ server 1,
base 11 @ server 2]` on a map tracking both servers is written entirely
into server `1`'s map (the first element's server); server `2`'s map is
untouched, and the second event's record carries its own base id, faction
and timestamp. -/
theorem C10_first_element_dispatch_witness :
    handle [Event.base (BaseControl.mk 1 1 4 10 1 2),
            Event.base (BaseControl.mk 2 2 4 11 1 3)]
        [(1, []), (2, [])]
      = some [(1, [(10, (2, 1)), (11, (3, 2))]), (2, [])]
    ∧ handle ([] : List Event) [(1, ([] : OwnerMap)), (2, [])]
        = some [(1, []), (2, [])] := by
  have h := C10_first_element_dispatch [(1, []), (2, [])]
  have h3 := h.2.2 (BaseControl.mk 1 1 4 10 1 2)
    [BaseControl.mk 2 2 4 11 1 3] [] (by decide)
  exact ⟨h3, h.1⟩

/-! ### Bootstrap claims -/

/-- Folding region insertions tagged `now` into an owner map: presence. -/
theorem fold_insert_isSome (now : ℤ) (ps : List (Nat × Nat)) (om : OwnerMap)
    (b : Nat) :
    (dlookup (ps.foldl (fun om r => dset om r.1 (r.2, now)) om) b).isSome
      ↔ b ∈ ps.map Prod.fst ∨ (dlookup om b).isSome := by
  induction ps generalizing om with
  | nil => simp
  | cons r rest ih =>
      simp only [List.foldl_cons, List.map_cons, List.mem_cons]
      rw [ih, isSome_dlookup_dset]
      tauto

/-- Folding region insertions tagged `now`: every stored timestamp is
`now` (given that held before). -/
theorem fold_insert_time (now : ℤ) (ps : List (Nat × Nat)) (om : OwnerMap)
    (hom : ∀ b f t, dlookup om b = some (f, t) → t = now) :
    ∀ b f t,
      dlookup (ps.foldl (fun om r => dset om r.1 (r.2, now)) om) b
        = some (f, t) → t = now := by
  induction ps generalizing om with
  | nil => exact hom
  | cons r rest ih =>
      simp only [List.foldl_cons]
      apply ih
      intro b f t hb
      rcases dlookup_dset_cases om r.1 b (r.2, now) (f, t) hb with ⟨_, hv⟩ | hp
      · cases hv; rfl
      · exact hom b f t hp

/-- The nested census fold of `set_base_ownership_from_census_data`:
presence of a base iff it occurs as a `RegionId` of some row. -/
theorem census_fold_isSome (now : ℤ) (data : List (List (Nat × Nat)))
    (om : OwnerMap) (b : Nat) :
    (dlookup
        (data.foldl
          (fun om rows => rows.foldl (fun om r => dset om r.1 (r.2, now)) om)
          om) b).isSome
      ↔ b ∈ data.flatMap (fun rows => rows.map Prod.fst)
        ∨ (dlookup om b).isSome := by
  induction data generalizing om with
  | nil => simp
  | cons rows rest ih =>
      simp only [List.foldl_cons, List.flatMap_cons, List.mem_append]
      rw [ih, fold_insert_isSome]
      tauto

/-- The nested census fold: every record's timestamp is `now`. -/
theorem census_fold_time (now : ℤ) (data : List (List (Nat × Nat)))
    (om : OwnerMap)
    (hom : ∀ b f t, dlookup om b = some (f, t) → t = now) :
    ∀ b f t,
      dlookup
        (data.foldl
          (fun om rows => rows.foldl (fun om r => dset om r.1 (r.2, now)) om)
          om) b = some (f, t) → t = now := by
  induction data generalizing om with
  | nil => exact hom
  | cons rows rest ih =>
      simp only [List.foldl_cons]
      exact ih _ (fold_insert_time now rows om hom)

/-- The per-server bootstrap fold leaves servers it does not visit alone. -/
theorem init_fold_not_mem
    (snapshots : Nat → Option (List (List (Nat × Nat))))
    (fetch_time : Nat → ℤ) (servers : List Nat) (m : OwnershipMap)
    (s : Nat) (hs : s ∉ servers) :
    dlookup
      (servers.foldl
        (fun acc s' =>
          match snapshots s' with
          | some data =>
              set_base_ownership_from_census_data s' data (fetch_time s') acc
          | none => acc)
        m) s = dlookup m s := by
  induction servers generalizing m with
  | nil => rfl
  | cons s0 rest ih =>
      have hs0 : s ≠ s0 := fun h => hs (by simp [h])
      have hrest : s ∉ rest := fun h => hs (by simp [h])
      simp only [List.foldl_cons]
      rw [ih _ hrest]
      cases hsnap : snapshots s0 with
      | none => rfl
      | some data =>
          simp only [set_base_ownership_from_census_data]
          exact dlookup_dset_ne m s0 s _ hs0

/-- C5: after `reinitialize()` (modelled by `init_controller`, which
discards the prior map unread), every tracked server whose snapshot fetch
and decode succeeded maps to exactly the regions present in its snapshot
result — presence iff the base id occurs among the snapshot's rows — and
every record carries that server's snapshot fetch time. -/
theorem C5_bootstrap_replace (prior : OwnershipMap) (servers : List Nat)
    (snapshots : Nat → Option (List (List (Nat × Nat))))
    (fetch_time : Nat → ℤ) (s : Nat) (data : List (List (Nat × Nat)))
    (hnd : servers.Nodup) (hs : s ∈ servers)
    (hdata : snapshots s = some data) :
    ∃ om,
      dlookup (init_controller prior servers snapshots fetch_time) s = some om
      ∧ (∀ b, (dlookup om b).isSome
            ↔ b ∈ data.flatMap (fun rows => rows.map Prod.fst))
      ∧ (∀ b f t, dlookup om b = some (f, t) → t = fetch_time s) := by
  obtain ⟨l1, l2, rfl⟩ := List.append_of_mem hs
  have hs2 : s ∉ l2 := by
    have h2 : (s :: l2).Nodup := hnd.of_append_right
    exact (List.nodup_cons.1 h2).1
  unfold init_controller
  rw [List.foldl_append, List.foldl_cons]
  rw [init_fold_not_mem snapshots fetch_time l2 _ s hs2]
  rw [hdata]
  simp only [set_base_ownership_from_census_data]
  refine ⟨_, dlookup_dset_self _ s _, ?_, ?_⟩
  · intro b
    rw [census_fold_isSome]
    simp
  · apply census_fold_time
    intro b f t hb
    simp [dlookup] at hb

/-- C5, witness: tracked servers `[1, 2]`; server `1`'s snapshot succeeds
with regions `10 ↦ faction 3`, `11 ↦ faction 2` fetched at time `100`
(server `2`'s fetch fails and is skipped); the prior map held stale data
for server `1` that is discarded. -/
theorem C5_bootstrap_replace_witness :
    ∃ om,
      dlookup
        (init_controller [(1, [(99, (7, 5))])] [1, 2]
          (fun s => if s = 1 then some [[(10, 3), (11, 2)]] else none)
          (fun _ => 100)) 1 = some om
      ∧ (∀ b, (dlookup om b).isSome
            ↔ b ∈ ([[((10 : Nat), (3 : Nat)), (11, 2)]] :
                List (List (Nat × Nat))).flatMap
                  (fun rows => rows.map Prod.fst))
      ∧ (∀ b f t, dlookup om b = some (f, t) → t = (100 : ℤ)) :=
  C5_bootstrap_replace [(1, [(99, (7, 5))])] [1, 2]
    (fun s => if s = 1 then some [[(10, 3), (11, 2)]] else none)
    (fun _ => 100) 1 [[(10, 3), (11, 2)]]
    (by decide) (by decide) (by decide)

/-! ### Blip decoding claim -/

/-- The decode loop of `_get_base_control_blips` with its accumulators
generalised. -/
theorem get_blips_loop (rows : List Row) (acc1 : List BaseControl)
    (acc2 : List Row) :
    rows.foldl
      (fun acc row =>
        match from_row row with
        | some b => (acc.1 ++ [b], acc.2)
        | none => (acc.1, acc.2 ++ [row]))
      (acc1, acc2)
      = (acc1 ++ rows.filterMap from_row,
         acc2 ++ rows.filter (fun r => (from_row r).isNone)) := by
  induction rows generalizing acc1 acc2 with
  | nil => simp
  | cons r rest ih =>
      cases hr : from_row r with
      | some b =>
          simp only [List.foldl_cons, hr, List.filterMap_cons, List.filter_cons]
          rw [ih]
          simp [hr]
      | none =>
          simp only [List.foldl_cons, hr, List.filterMap_cons, List.filter_cons]
          rw [ih]
          simp [hr]

/-- The first element of a filtered list is the first element satisfying
the predicate. -/
theorem head?_filter_eq_find {α : Type} (p : α → Bool) (l : List α) :
    (l.filter p).head? = l.find? p := by
  induction l with
  | nil => rfl
  | cons a rest ih =>
      by_cases hp : p a = true
      · simp [List.filter_cons, List.find?_cons, hp]
      · simp only [Bool.not_eq_true] at hp
        simp [List.filter_cons, List.find?_cons, hp, ih]

/-- C8: fetching BaseControl blips decodes each buffered row with
`BaseControl.from_row`; every row failing to decode into the declared
shape (a caught `pydantic.ValidationError` / `IndexError`) lands in the
`failed` list and is excluded from the returned batch, all successfully
decoded rows are returned in fetch order, and the batch-level warning's
sample (`failed[0]`, logged once iff `failed` is non-empty) is the first
failing row.  `get_base_control_blips` is a total function: no decode
failure raises out of the fetch, so the poll loop is not halted. -/
theorem C8_malformed_rows_skipped (rows : List Row) :
    get_base_control_blips rows
      = (rows.filterMap from_row,
         rows.filter (fun r => (from_row r).isNone))
    ∧ (get_base_control_blips rows).2.head?
        = rows.find? (fun r => (from_row r).isNone) := by
  have h : get_base_control_blips rows
      = (rows.filterMap from_row,
         rows.filter (fun r => (from_row r).isNone)) := by
    unfold get_base_control_blips
    rw [get_blips_loop rows [] []]
    simp
  exact ⟨h, by rw [h]; exact head?_filter_eq_find _ rows⟩

/-! ### Dispatcher grouping claims -/

theorem dedupFirst_snoc {κ : Type} [DecidableEq κ] (l : List κ) (k : κ) :
    dedupFirst (l ++ [k])
      = if k ∈ dedupFirst l then dedupFirst l else dedupFirst l ++ [k] := by
  unfold dedupFirst
  rw [List.foldl_append]
  rfl

theorem mem_dedupFirst {κ : Type} [DecidableEq κ] (l : List κ) (k : κ) :
    k ∈ dedupFirst l ↔ k ∈ l := by
  induction l using List.reverseRecOn with
  | nil => rfl
  | append_singleton l x ih =>
      rw [dedupFirst_snoc]
      by_cases hx : x ∈ dedupFirst l
      · rw [if_pos hx]
        simp only [List.mem_append, List.mem_singleton]
        constructor
        · intro h; exact Or.inl (ih.1 h)
        · rintro (h | rfl)
          · exact ih.2 h
          · exact hx
      · rw [if_neg hx]
        simp [ih]

theorem nodup_dedupFirst {κ : Type} [DecidableEq κ] (l : List κ) :
    (dedupFirst l).Nodup := by
  induction l using List.reverseRecOn with
  | nil => exact List.nodup_nil
  | append_singleton l x ih =>
      rw [dedupFirst_snoc]
      by_cases hx : x ∈ dedupFirst l
      · rwa [if_pos hx]
      · rw [if_neg hx]
        simp [List.nodup_append, ih, hx]

/-- Looking a key up in a keyed `map` of buckets. -/
theorem dlookup_map_pair {κ β : Type} [DecidableEq κ] (ks : List κ)
    (g : κ → β) (k : κ) :
    dlookup (ks.map (fun j => (j, g j))) k
      = if k ∈ ks then some (g k) else none := by
  induction ks with
  | nil => rfl
  | cons j rest ih =>
      simp only [List.map_cons, dlookup_cons, List.mem_cons]
      by_cases hk : k = j
      · subst hk; simp
      · simp [hk, ih]

/-- Updating a keyed `map` of buckets at a present key. -/
theorem dset_map_pair {κ β : Type} [DecidableEq κ] (ks : List κ)
    (g : κ → β) (k : κ) (w : β) (hk : k ∈ ks) (hnd : ks.Nodup) :
    dset (ks.map (fun j => (j, g j))) k w
      = ks.map (fun j => (j, if j = k then w else g j)) := by
  induction ks with
  | nil => simp at hk
  | cons j rest ih =>
      obtain ⟨hj, hndrest⟩ := List.nodup_cons.1 hnd
      simp only [List.map_cons, dset_cons]
      by_cases hkj : k = j
      · subst hkj
        rw [if_pos rfl]
        simp only [if_pos rfl]
        congr 1
        refine (List.map_congr_left ?_).symm
        intro a ha
        have : a ≠ k := fun h => hj (h ▸ ha)
        simp [this]
      · rw [if_neg hkj]
        have hkrest : k ∈ rest := by
          rcases List.mem_cons.1 hk with h | h
          · exact absurd h hkj
          · exact h
        rw [ih hkrest hndrest]
        have : j ≠ k := fun h => hkj h.symm
        simp [this]

/-- Extending the batch by one element whose key already has a bucket
appends it to that bucket. -/
theorem groupBy_snoc_mem {α κ : Type} [DecidableEq κ] (key : α → κ)
    (xs : List α) (x : α) (l : List α)
    (h : dlookup (groupBy key xs) (key x) = some l) :
    groupBy key (xs ++ [x]) = dset (groupBy key xs) (key x) (l ++ [x]) := by
  unfold groupBy
  rw [List.foldl_append]
  show (match dlookup (groupBy key xs) (key x) with
      | some l => dset (groupBy key xs) (key x) (l ++ [x])
      | none => groupBy key xs ++ [(key x, [x])]) = _
  rw [h]
  rfl

/-- Extending the batch by one element with a fresh key creates a new
bucket at the end. -/
theorem groupBy_snoc_new {α κ : Type} [DecidableEq κ] (key : α → κ)
    (xs : List α) (x : α)
    (h : dlookup (groupBy key xs) (key x) = none) :
    groupBy key (xs ++ [x]) = groupBy key xs ++ [(key x, [x])] := by
  unfold groupBy
  rw [List.foldl_append]
  show (match dlookup (groupBy key xs) (key x) with
      | some l => dset (groupBy key xs) (key x) (l ++ [x])
      | none => groupBy key xs ++ [(key x, [x])]) = _
  rw [h]
  rfl

/-- `groupBy` computes exactly the specification normal form: one bucket
per distinct key in first-occurrence order, each bucket the subsequence
of the batch with that key. -/
theorem groupBy_eq_groupSpec {α κ : Type} [DecidableEq κ] (key : α → κ)
    (xs : List α) : groupBy key xs = groupSpec key xs := by
  induction xs using List.reverseRecOn with
  | nil => rfl
  | append_singleton xs x ih =>
      have hmapsnoc : (xs ++ [x]).map key = xs.map key ++ [key x] := by
        simp
      by_cases hx : key x ∈ dedupFirst (xs.map key)
      · have hlk : dlookup (groupBy key xs) (key x)
            = some (xs.filter (fun a => key a = key x)) := by
          rw [ih]
          unfold groupSpec
          rw [dlookup_map_pair, if_pos hx]
        rw [groupBy_snoc_mem key xs x _ hlk, ih]
        unfold groupSpec
        rw [hmapsnoc, dedupFirst_snoc, if_pos hx]
        rw [dset_map_pair _ _ _ _ hx (nodup_dedupFirst _)]
        refine List.map_congr_left ?_
        intro j hj
        rw [List.filter_append]
        by_cases hjx : j = key x
        · subst hjx
          simp
        · have : ¬ (key x = j) := fun h => hjx h.symm
          simp [hjx, this]
      · have hlk : dlookup (groupBy key xs) (key x) = none := by
          rw [ih]
          unfold groupSpec
          rw [dlookup_map_pair, if_neg hx]
        rw [groupBy_snoc_new key xs x hlk, ih]
        unfold groupSpec
        rw [hmapsnoc, dedupFirst_snoc, if_neg hx]
        rw [List.map_append]
        congr 1
        · refine List.map_congr_left ?_
          intro j hj
          have hjx : j ≠ key x := fun h => hx (h ▸ hj)
          have : ¬ (key x = j) := fun h => hjx h.symm
          rw [List.filter_append]
          simp [this]
        · have hnone : xs.filter (fun a => decide (key a = key x)) = [] := by
            refine List.filter_eq_nil_iff.2 ?_
            intro a ha hkey
            apply hx
            rw [mem_dedupFirst]
            refine List.mem_map.2 ⟨a, ha, ?_⟩
            simpa using hkey
          simp [List.filter_append, hnone]

/-- Filtering first by type, then by server, is one filter by both. -/
theorem filter_filter_and (events : List Event) (t : EventType) (s : Nat) :
    (events.filter (fun e => e.etype = t)).filter (fun e => e.server_id = s)
      = events.filter (fun e => e.etype = t ∧ e.server_id = s) := by
  rw [List.filter_filter]
  refine List.filter_congr ?_
  intro e he
  simp [Bool.and_comm]

/-- `EventDispatcher._dispatch` in closed form: for each concrete event
type in first-occurrence order, for each origin server (among that type's
events) in first-occurrence order, each registered handler — in
registration order — receives exactly the events of that type and server,
in buffer-fetch order. -/
theorem dispatch_normal_form {H : Type} (handlers : List H)
    (events : List Event) :
    dispatch handlers events
      = (dedupFirst (events.map Event.etype)).flatMap (fun t =>
          (dedupFirst
            ((events.filter (fun e => e.etype = t)).map Event.server_id)).flatMap
            (fun s => handlers.map (fun h =>
              (h, events.filter (fun e => e.etype = t ∧ e.server_id = s))))) := by
  unfold dispatch
  rw [groupBy_eq_groupSpec]
  unfold groupSpec
  rw [List.flatMap_map]
  refine congrArg (List.flatMap (dedupFirst (events.map Event.etype))) ?_
  funext t
  rw [groupBy_eq_groupSpec]
  unfold groupSpec
  rw [List.flatMap_map]
  refine congrArg _ ?_
  funext s
  simp only [filter_filter_and]

/-- C4: the dispatcher partitions every fetched batch first by concrete
event type, then by `server_id`, and for every (type, server) pair calls
`handle` once per registered handler in registration order, with exactly
the events of that type and server in buffer-fetch order; in particular,
for the batch `[A@server1, A@server2, B@server1]` (A = `BaseControl`,
B = plain `Event`) each of two registered handlers is invoked three
times, once per (type, server) pair, with only the matching subset and
never mixing types or servers in one call. -/
theorem C4_dispatch_grouping :
    (∀ (H : Type) (handlers : List H) (events : List Event),
       dispatch handlers events
         = (dedupFirst (events.map Event.etype)).flatMap (fun t =>
             (dedupFirst
               ((events.filter
                 (fun e => e.etype = t)).map Event.server_id)).flatMap
               (fun s => handlers.map (fun h =>
                 (h, events.filter
                   (fun e => e.etype = t ∧ e.server_id = s))))))
    ∧ dispatch [0, 1]
        [Event.base (BaseControl.mk 1 1 1 10 1 2),
         Event.base (BaseControl.mk 2 2 1 11 1 2),
         Event.plain 3 1 1]
      = [(0, [Event.base (BaseControl.mk 1 1 1 10 1 2)]),
         (1, [Event.base (BaseControl.mk 1 1 1 10 1 2)]),
         (0, [Event.base (BaseControl.mk 2 2 1 11 1 2)]),
         (1, [Event.base (BaseControl.mk 2 2 1 11 1 2)]),
         (0, [Event.plain 3 1 1]),
         (1, [Event.plain 3 1 1])] :=
  ⟨fun _ handlers events => dispatch_normal_form handlers events, by decide⟩

/-- C9: every batch a `run` cycle hands to a handler is non-empty and
homogeneous — all its events share one concrete type and one server id —
and a cycle that fetched zero events dispatches nothing at all. -/
theorem C9_batch_shape {H : Type} (handlers : List H)
    (events : List Event) :
    (∀ pr ∈ run_cycle handlers events, pr.2 ≠ ([] : List Event)
       ∧ ∀ e ∈ pr.2, ∀ e2 ∈ pr.2,
           e.etype = e2.etype ∧ e.server_id = e2.server_id)
    ∧ run_cycle handlers ([] : List Event) = [] := by
  refine ⟨?_, rfl⟩
  intro pr hpr
  unfold run_cycle at hpr
  by_cases hne : events.isEmpty
  · rw [if_pos hne] at hpr
    simp at hpr
  · rw [if_neg hne] at hpr
    rw [dispatch_normal_form] at hpr
    obtain ⟨t, ht, hpr2⟩ := List.mem_flatMap.1 hpr
    obtain ⟨s, hs, hpr3⟩ := List.mem_flatMap.1 hpr2
    obtain ⟨h, hh, rfl⟩ := List.mem_map.1 hpr3
    constructor
    · rw [mem_dedupFirst] at hs
      obtain ⟨e, he, hes⟩ := List.mem_map.1 hs
      have hfe := List.mem_filter.1 he
      have het : e.etype = t := by simpa using hfe.2
      intro hcon
      have hnil : events.filter
          (fun e => e.etype = t ∧ e.server_id = s) = [] := hcon
      have hmem : e ∈ events.filter
          (fun e => e.etype = t ∧ e.server_id = s) := by
        refine List.mem_filter.2 ⟨hfe.1, ?_⟩
        simp [het, hes]
      rw [hnil] at hmem
      simp at hmem
    · intro e he e2 he2
      have h1 := (List.mem_filter.1 he).2
      have h2 := (List.mem_filter.1 he2).2
      simp only [decide_eq_true_eq] at h1 h2
      obtain ⟨h1a, h1b⟩ := h1
      obtain ⟨h2a, h2b⟩ := h2
      exact ⟨h1a.trans h2a.symm, h1b.trans h2b.symm⟩

/-- C9, witness: one handler, one fetched `BaseControl` event — the
single dispatched batch is non-empty and homogeneous. -/
theorem C9_batch_shape_witness :
    [Event.base (BaseControl.mk 1 1 1 10 1 2)] ≠ ([] : List Event)
    ∧ ∀ e ∈ [Event.base (BaseControl.mk 1 1 1 10 1 2)],
        ∀ e2 ∈ [Event.base (BaseControl.mk 1 1 1 10 1 2)],
          e.etype = e2.etype ∧ e.server_id = e2.server_id :=
  (C9_batch_shape [0] [Event.base (BaseControl.mk 1 1 1 10 1 2)]).1
    ((0 : Nat), [Event.base (BaseControl.mk 1 1 1 10 1 2)]) (by decide)

end PS2Map
